import Mathlib

/-!
Verification of the inter-agent presence and messaging subsystem of MCP-TMUX
(`AgentCommunicationManager` in the TypeScript source).

The filesystem is modelled shallowly: each directory is a list of files, a
file being a name together with the result of parsing its JSON content
(`none` models a file whose content fails to parse as the expected record
shape, mirroring the per-file try/catch in the source).  Timestamps
(`Date.getTime()` values, file mtimes) are integers counting milliseconds.
`randomUUID` is modelled by an explicit supply of identifiers.  Sorting with
a JS comparator on timestamps is modelled by insertion sort over the
corresponding relation.
-/

/-- The `type` field of a message record: `'command' | 'message' | 'response'`. -/
inductive MsgType
  | command
  | message
  | response
  deriving DecidableEq, Repr

/-- The `status` field of an agent record: `'online' | 'offline'`. -/
inductive AgentStatus
  | online
  | offline
  deriving DecidableEq, Repr

/-- The optional `sessionInfo` override of a command send:
`{ session: string; window?: string; pane?: string }`. -/
structure SessionInfo where
  session : String
  window : Option String
  pane : Option String
  deriving DecidableEq, Repr

/-- `AgentMessage` record shape from the source (`from` is a Lean keyword,
hence the field name `from_`). -/
structure AgentMessage where
  id : String
  from_ : String
  to_ : String
  type : MsgType
  content : String
  timestamp : Int
  sessionInfo : Option SessionInfo
  deriving DecidableEq, Repr

/-- `AgentInfo` record shape from the source. -/
structure AgentInfo where
  id : String
  name : String
  session : String
  lastSeen : Int
  status : AgentStatus
  deriving DecidableEq, Repr

/-- One file of the agents directory: its name and the result of reading and
JSON-parsing it.  `parsed = some a` models content that is a well-shaped
agent record; `parsed = none` models content on which `JSON.parse` throws.
JSON-valid content of the wrong shape is outside this typed model — it is
treated by the refined `JsFile` model further below. -/
structure AgentFile where
  name : String
  parsed : Option AgentInfo
  deriving DecidableEq, Repr

/-- One file of the messages directory: name, parse result, and the file
modification time used by `clearOldMessages`.  As for `AgentFile`,
`parsed = none` models content on which `JSON.parse` throws; wrong-shape
JSON-valid content is treated by the refined `JsFile` model further below. -/
structure MsgFile where
  name : String
  parsed : Option AgentMessage
  mtime : Int
  deriving DecidableEq, Repr

/-- JS `file.endsWith('.json')`: executable suffix test on strings (the
char-list model of `String.endsWith`, which itself does not reduce in the
kernel). -/
def strEndsWith (s suffix : String) : Bool :=
  suffix.data.isSuffixOf s.data

/-- The status computation of `listActiveAgents`:
`diffMinutes = (now - lastSeen) / (1000*60); diffMinutes < 5` is equivalent,
for integer millisecond timestamps, to `now - lastSeen < 300000`. -/
def statusOf (now lastSeen : Int) : AgentStatus :=
  if now - lastSeen < 300000 then AgentStatus.online else AgentStatus.offline

/-- The per-file step of `listActiveAgents` over the typed model: a `.json`
file holding a well-shaped record is kept with its `status` recomputed; a
file whose read/parse throws is skipped by the per-file try/catch.  (The
source has no shape validation; see `jsListFilter` for the behaviour on
JSON-valid content of the wrong shape.) -/
def listFilter (now : Int) (f : AgentFile) : Option AgentInfo :=
  if strEndsWith f.name ".json" then
    match f.parsed with
    | some agent => some { agent with status := statusOf now agent.lastSeen }
    | none => none
  else none

/-- `listActiveAgents()`: every `.json` file of the agents directory that
parses is returned with its `status` field recomputed from `lastSeen`;
corrupted files and non-`.json` files are skipped. -/
def listActiveAgents (files : List AgentFile) (now : Int) : List AgentInfo :=
  files.filterMap (listFilter now)

/-- `getAgentInfo(agentId)`: read `agents/<agentId>.json` and return the
parsed record as-is; a missing file or a parse failure yields `null`. -/
def getAgentInfo (files : List AgentFile) (agentId : String) : Option AgentInfo :=
  match files.find? (fun f => f.name == agentId ++ ".json") with
  | some f => f.parsed
  | none => none

/-- Ascending-timestamp comparator of `getIncomingMessages`
(`new Date(a.timestamp).getTime() - new Date(b.timestamp).getTime()`). -/
def tsLE (a b : AgentMessage) : Prop := a.timestamp ≤ b.timestamp

/-- Descending-timestamp comparator of `getMessageHistory`. -/
def tsGE (a b : AgentMessage) : Prop := b.timestamp ≤ a.timestamp

instance : DecidableRel tsLE := fun a b =>
  inferInstanceAs (Decidable (a.timestamp ≤ b.timestamp))

instance : DecidableRel tsGE := fun a b =>
  inferInstanceAs (Decidable (b.timestamp ≤ a.timestamp))

instance : IsTotal AgentMessage tsLE :=
  ⟨fun a b => Int.le_total a.timestamp b.timestamp⟩

instance : IsTrans AgentMessage tsLE :=
  ⟨fun a b c h1 h2 => by unfold tsLE at *; exact le_trans h1 h2⟩

instance : IsTotal AgentMessage tsGE :=
  ⟨fun a b => Int.le_total b.timestamp a.timestamp⟩

instance : IsTrans AgentMessage tsGE :=
  ⟨fun a b c h1 h2 => by unfold tsGE at *; exact le_trans h2 h1⟩

/-- The filtering pass of `getIncomingMessages` over the typed model: every
`.json` file of the messages directory holding a well-shaped record whose
`to` equals the caller's identity; files whose read/parse throws are skipped
by the per-file try/catch (see `jsIncomingFilter` for wrong-shape
JSON-valid content). -/
def incomingFilter (self : String) (f : MsgFile) : Option AgentMessage :=
  if strEndsWith f.name ".json" then
    match f.parsed with
    | some m => if m.to_ == self then some m else none
    | none => none
  else none

/-- See `incomingFilter`. -/
def incomingOf (store : List MsgFile) (self : String) : List AgentMessage :=
  store.filterMap (incomingFilter self)

/-- `getIncomingMessages()`: filter to the caller's identity, then sort
ascending by timestamp. -/
def getIncomingMessages (store : List MsgFile) (self : String) : List AgentMessage :=
  List.insertionSort tsLE (incomingOf store self)

/-- The `isRelevant` predicate of `getMessageHistory`:
`!targetAgentId || from === t || to === t || from === self || to === self`. -/
def isRelevant (self : String) (targetId : Option String) (m : AgentMessage) : Bool :=
  match targetId with
  | none => true
  | some t => m.from_ == t || m.to_ == t || m.from_ == self || m.to_ == self

/-- The per-file step of `getMessageHistory` over the typed model (see
`jsHistoryFilter` for wrong-shape JSON-valid content). -/
def historyFilter (self : String) (targetId : Option String) (f : MsgFile) :
    Option AgentMessage :=
  if strEndsWith f.name ".json" then
    match f.parsed with
    | some m => if isRelevant self targetId m then some m else none
    | none => none
  else none

/-- The filtering pass of `getMessageHistory`. -/
def historyOf (store : List MsgFile) (self : String) (targetId : Option String) :
    List AgentMessage :=
  store.filterMap (historyFilter self targetId)

/-- `getMessageHistory(targetAgentId?, limit)`: filter, sort descending by
timestamp, truncate to `limit`. -/
def getMessageHistory (store : List MsgFile) (self : String) (targetId : Option String)
    (limit : Nat) : List AgentMessage :=
  (List.insertionSort tsGE (historyOf store self targetId)).take limit

/-- `unlink` of a message file, as used by `deleteMessage` (idempotent:
removing an absent name is a no-op). -/
def deleteFile (store : List MsgFile) (name : String) : List MsgFile :=
  store.filter fun f => f.name != name

/-- `writeFile` semantics of the agents directory: replace the content of an
existing file of that name, or create the file. -/
def putAgentFile (files : List AgentFile) (name : String) (info : AgentInfo) :
    List AgentFile :=
  if files.any (fun f => f.name == name) then
    files.map fun f => if f.name == name then ⟨name, some info⟩ else f
  else
    files ++ [⟨name, some info⟩]

/-- The fields of the manager fixed at construction: `agentId = randomUUID()`
generated once, and the supplied `agentName`. -/
structure ManagerState where
  agentId : String
  agentName : String
  deriving DecidableEq, Repr

/-- `registerAgent(sessionName)`: write the agent record to
`agents/<agentId>.json` and return the confirmation string. -/
def registerAgent (m : ManagerState) (sessionName : String) (now : Int)
    (files : List AgentFile) : List AgentFile × String :=
  let info : AgentInfo :=
    ⟨m.agentId, m.agentName, sessionName, now, AgentStatus.online⟩
  (putAgentFile files (m.agentId ++ ".json") info,
    "Agent \"" ++ m.agentName ++ "\" registered with ID: " ++ m.agentId)

/-- `clearOldMessages(hoursOld)` on the success path (every stat/unlink
succeeds): delete every `.json` file whose mtime is strictly before
`now - hoursOld hours`, and report the number deleted. -/
def clearOldMessages (store : List MsgFile) (now : Int) (hoursOld : Int) :
    List MsgFile × String :=
  let cutoff := now - hoursOld * 60 * 60 * 1000
  let deletedCount :=
    store.countP fun f => strEndsWith f.name ".json" && decide (f.mtime < cutoff)
  (store.filter fun f => !(strEndsWith f.name ".json" && decide (f.mtime < cutoff)),
    "Deleted " ++ toString deletedCount ++ " old messages")

/-- `sendMessage(targetAgentId, content, type)`.  `persistOk` models whether
the `writeFile` persisting the record succeeds (a failure there propagates as
an error); `delivery` models the outcome of the two tmux `sendKeys` calls
(`Except.error e` = the try-block threw with message `e`).  The live-delivery
attempt happens only for `type === 'message'` and only when the target agent
record exists with a non-empty session. -/
def sendMessage (self : String) (agents : List AgentFile) (store : List MsgFile)
    (newId : String) (now : Int) (persistOk : Bool) (delivery : Except String Unit)
    (target : String) (content : String) (ty : MsgType) :
    Except String (List MsgFile × String) :=
  let message : AgentMessage := ⟨newId, self, target, ty, content, now, none⟩
  if persistOk then
    let store1 := store ++ [⟨newId ++ ".json", some message, now⟩]
    if ty = MsgType.message then
      match getAgentInfo agents target with
      | some targetAgent =>
        if targetAgent.session ≠ "" then
          match delivery with
          | Except.ok _ =>
            Except.ok (store1, "Message sent to agent " ++ target ++
              " in tmux session " ++ targetAgent.session ++ ": " ++ content)
          | Except.error e =>
            Except.ok (store1, "Message saved for agent " ++ target ++
              ", but failed to send to tmux: " ++ e)
        else
          Except.ok (store1, "Message sent to agent " ++ target ++ ": " ++ content)
      | none =>
        Except.ok (store1, "Message sent to agent " ++ target ++ ": " ++ content)
    else
      Except.ok (store1, "Message sent to agent " ++ target ++ ": " ++ content)
  else
    Except.error "writeFile failed"

/-- The delivery-target computation of `sendCommandToAgent` when explicit
`sessionInfo` is given:
`sessionInfo.pane || session + ":" + (sessionInfo.window || 0)`. -/
def mkTarget (si : SessionInfo) : String :=
  match si.pane with
  | some p => p
  | none => si.session ++ ":" ++ (match si.window with | some w => w | none => "0")

/-- `sendCommandToAgent(targetAgentId, command, sessionInfo?)`.  Returns the
new message store, the confirmation string, and the tmux target string used
for the live-delivery attempt (`none` when no delivery was attempted). -/
def sendCommandToAgent (self : String) (agents : List AgentFile)
    (store : List MsgFile) (newId : String) (now : Int) (persistOk : Bool)
    (delivery : Except String Unit) (target : String) (command : String)
    (sessionInfo : Option SessionInfo) :
    Except String (List MsgFile × String × Option String) :=
  let message : AgentMessage :=
    ⟨newId, self, target, MsgType.command, command, now, sessionInfo⟩
  if persistOk then
    let store1 := store ++ [⟨newId ++ ".json", some message, now⟩]
    match sessionInfo with
    | some si =>
      match delivery with
      | Except.ok _ =>
        Except.ok (store1, "Command sent to agent " ++ target ++
          " and executed in tmux: " ++ command, some (mkTarget si))
      | Except.error e =>
        Except.ok (store1, "Command queued for agent " ++ target ++
          ", but failed to execute in tmux: " ++ e, some (mkTarget si))
    | none =>
      match getAgentInfo agents target with
      | some targetAgent =>
        if targetAgent.session ≠ "" then
          match delivery with
          | Except.ok _ =>
            Except.ok (store1, "Command sent to agent " ++ target ++
              " in tmux session " ++ targetAgent.session ++ ": " ++ command,
              some (targetAgent.session ++ ":0"))
          | Except.error e =>
            Except.ok (store1, "Command queued for agent " ++ target ++
              ", but failed to send to tmux: " ++ e,
              some (targetAgent.session ++ ":0"))
        else
          Except.ok (store1, "Command queued for agent " ++ target ++ ": " ++ command,
            none)
      | none =>
        Except.ok (store1, "Command queued for agent " ++ target ++ ": " ++ command,
          none)
  else
    Except.error "writeFile failed"

/-- The acknowledgement record file written by one iteration of
`processIncomingCommands` for command `m`: `sendMessage(m.from,
"Command executed: " + m.content, 'message')` persists this record (the
`type` argument passed by the source is `'message'`). -/
def mkAck (self : String) (freshId : Nat → String) (now : Int) (k : Nat)
    (m : AgentMessage) : MsgFile :=
  ⟨freshId k ++ ".json",
    some ⟨freshId k, self, m.from_, MsgType.message,
      "Command executed: " ++ m.content, now, none⟩,
    now⟩

/-- The acknowledgement files produced for a list of command messages,
consuming fresh identifiers from index `k` on. -/
def ackFiles (self : String) (freshId : Nat → String) (now : Int) :
    Nat → List AgentMessage → List MsgFile
  | _, [] => []
  | k, m :: ms => mkAck self freshId now k m :: ackFiles self freshId now (k + 1) ms

/-- The loop body of `processIncomingCommands` on the success path of each
iteration: for each message of type `command` (in incoming order), record the
execution-result string, persist the acknowledgement via `sendMessage`, then
`deleteMessage(m.id)` (which unlinks `messages/<m.id>.json`). -/
def runCommands (self : String) (freshId : Nat → String) (now : Int) :
    Nat → List AgentMessage → List MsgFile → List String × List MsgFile
  | _, [], st => ([], st)
  | k, m :: ms, st =>
    if m.type = MsgType.command then
      let ack := mkAck self freshId now k m
      let st2 := deleteFile (st ++ [ack]) (m.id ++ ".json")
      let r := runCommands self freshId now (k + 1) ms st2
      (("Processed command from " ++ m.from_ ++ ": " ++ m.content) :: r.1, r.2)
    else
      runCommands self freshId now k ms st

/-- `processIncomingCommands()`: iterate over `getIncomingMessages()` with the
loop above. -/
def processIncomingCommands (self : String) (freshId : Nat → String) (now : Int)
    (store : List MsgFile) : List String × List MsgFile :=
  runCommands self freshId now 0 (getIncomingMessages store self) store

theorem incomingFilter_eq_some (self : String) (f : MsgFile) (m : AgentMessage) :
    incomingFilter self f = some m ↔
      strEndsWith f.name ".json" = true ∧ f.parsed = some m ∧ m.to_ = self := by
  rcases f with ⟨fn, fp, fmt⟩
  unfold incomingFilter
  dsimp only
  by_cases hj : strEndsWith fn ".json" = true
  · rw [if_pos hj]
    cases fp with
    | none => simp [hj]
    | some m2 =>
      by_cases hto : m2.to_ = self
      · simp only [hj, true_and, beq_iff_eq, hto, if_pos, Option.some_inj]
        constructor
        · rintro rfl; exact ⟨rfl, hto⟩
        · rintro ⟨h, _⟩; exact h
      · simp only [beq_iff_eq, hto, if_neg, hj, true_and]
        constructor
        · rintro h; simp at h
        · rintro ⟨h, h2⟩
          obtain rfl := Option.some_inj.mp h
          exact absurd h2 hto
  · rw [if_neg hj]
    simp [hj]

theorem historyFilter_eq_some (self : String) (targetId : Option String)
    (f : MsgFile) (m : AgentMessage) :
    historyFilter self targetId f = some m ↔
      strEndsWith f.name ".json" = true ∧ f.parsed = some m ∧
        isRelevant self targetId m = true := by
  rcases f with ⟨fn, fp, fmt⟩
  unfold historyFilter
  dsimp only
  by_cases hj : strEndsWith fn ".json" = true
  · rw [if_pos hj]
    cases fp with
    | none => simp [hj]
    | some m2 =>
      by_cases hrel : isRelevant self targetId m2 = true
      · simp only [hj, true_and, hrel, if_pos, Option.some_inj]
        constructor
        · rintro rfl; exact ⟨rfl, hrel⟩
        · rintro ⟨h, _⟩; exact h
      · simp only [hrel, if_neg, hj, true_and]
        constructor
        · rintro h; simp at h
        · rintro ⟨h, h2⟩
          obtain rfl := Option.some_inj.mp h
          exact absurd h2 hrel
  · rw [if_neg hj]
    simp [hj]

theorem listFilter_eq_some (now : Int) (f : AgentFile) (a : AgentInfo) :
    listFilter now f = some a ↔
      strEndsWith f.name ".json" = true ∧
        ∃ orig, f.parsed = some orig ∧
          a = { orig with status := statusOf now orig.lastSeen } := by
  rcases f with ⟨fn, fp⟩
  unfold listFilter
  dsimp only
  by_cases hj : strEndsWith fn ".json" = true
  · rw [if_pos hj]
    cases fp with
    | none => simp [hj]
    | some orig =>
      simp only [hj, true_and, Option.some_inj]
      constructor
      · rintro rfl; exact ⟨orig, rfl, rfl⟩
      · rintro ⟨o2, ho, rfl⟩
        rcases ho with rfl
        rfl
  · rw [if_neg hj]
    simp [hj]

/-- A list sorted ascending by timestamp that is a permutation of another
such sorted list with pairwise-distinct timestamps equals it. -/
theorem eq_of_perm_sorted_nodup (l l2 : List AgentMessage) (hp : l.Perm l2)
    (hs : l.Sorted tsLE) (hs2 : l2.Sorted tsLE)
    (hd : (l2.map AgentMessage.timestamp).Nodup) : l = l2 := by
  induction l2 generalizing l with
  | nil => exact hp.eq_nil
  | cons m ms ih =>
    cases l with
    | nil =>
      have := hp.symm.eq_nil
      simp at this
    | cons a as =>
      have hal2 : a ∈ m :: ms := hp.mem_iff.mp (List.mem_cons_self a as)
      have hml : m ∈ a :: as := hp.symm.mem_iff.mp (List.mem_cons_self m ms)
      have ham : a = m := by
        have h1 : a.timestamp ≤ m.timestamp := by
          rcases List.mem_cons.mp hml with h | h
          · rw [h]
          · exact (List.sorted_cons.mp hs).1 m h
        have h2 : m.timestamp ≤ a.timestamp := by
          rcases List.mem_cons.mp hal2 with h | h
          · rw [h]
          · exact (List.sorted_cons.mp hs2).1 a h
        have hts : a.timestamp = m.timestamp := le_antisymm h1 h2
        rcases List.mem_cons.mp hal2 with h | h
        · exact h
        · exfalso
          have hmem : m.timestamp ∈ ms.map AgentMessage.timestamp := by
            rw [← hts]
            exact List.mem_map_of_mem _ h
          simp only [List.map_cons, List.nodup_cons] at hd
          exact hd.1 hmem
      subst ham
      have hp2 : as.Perm ms := hp.cons_inv
      have hrec := ih as hp2 (List.sorted_cons.mp hs).2 (List.sorted_cons.mp hs2).2
        (by simp only [List.map_cons, List.nodup_cons] at hd; exact hd.2)
      rw [hrec]

theorem mem_incomingOf (store : List MsgFile) (self : String) (m : AgentMessage) :
    m ∈ incomingOf store self ↔
      ∃ f, f ∈ store ∧ strEndsWith f.name ".json" = true ∧ f.parsed = some m ∧
        m.to_ = self := by
  unfold incomingOf
  rw [List.mem_filterMap]
  constructor
  · rintro ⟨f, hf, hg⟩
    obtain ⟨h1, h2, h3⟩ := (incomingFilter_eq_some self f m).mp hg
    exact ⟨f, hf, h1, h2, h3⟩
  · rintro ⟨f, hf, h1, h2, h3⟩
    exact ⟨f, hf, (incomingFilter_eq_some self f m).mpr ⟨h1, h2, h3⟩⟩

theorem mem_historyOf (store : List MsgFile) (self : String)
    (targetId : Option String) (m : AgentMessage) :
    m ∈ historyOf store self targetId ↔
      ∃ f, f ∈ store ∧ strEndsWith f.name ".json" = true ∧ f.parsed = some m ∧
        isRelevant self targetId m = true := by
  unfold historyOf
  rw [List.mem_filterMap]
  constructor
  · rintro ⟨f, hf, hg⟩
    obtain ⟨h1, h2, h3⟩ := (historyFilter_eq_some self targetId f m).mp hg
    exact ⟨f, hf, h1, h2, h3⟩
  · rintro ⟨f, hf, h1, h2, h3⟩
    exact ⟨f, hf, (historyFilter_eq_some self targetId f m).mpr ⟨h1, h2, h3⟩⟩

/-- C5: `getIncomingMessages()` returns exactly the persisted messages whose
`to` equals the caller's own identity (parseable `.json` files only), sorted
ascending by `timestamp`; in particular, when the caller's incoming set is a
permutation of three messages with strictly increasing timestamps
t1 < t2 < t3, the returned order is exactly [t1, t2, t3]. -/
theorem C5_getIncomingMessages_spec (store : List MsgFile) (self : String) :
    (∀ m, m ∈ getIncomingMessages store self ↔
      ∃ f, f ∈ store ∧ strEndsWith f.name ".json" = true ∧ f.parsed = some m ∧
        m.to_ = self) ∧
    (getIncomingMessages store self).Sorted tsLE ∧
    (getIncomingMessages store self).Perm (incomingOf store self) ∧
    (∀ m1 m2 m3, (incomingOf store self).Perm [m1, m2, m3] →
      m1.timestamp < m2.timestamp → m2.timestamp < m3.timestamp →
      getIncomingMessages store self = [m1, m2, m3]) := by
  refine ⟨?_, ?_, ?_, ?_⟩
  · intro m
    unfold getIncomingMessages
    rw [(List.perm_insertionSort tsLE (incomingOf store self)).mem_iff]
    exact mem_incomingOf store self m
  · exact List.sorted_insertionSort tsLE _
  · exact List.perm_insertionSort tsLE _
  · intro m1 m2 m3 hperm h12 h23
    apply eq_of_perm_sorted_nodup
    · exact (List.perm_insertionSort tsLE _).trans hperm
    · exact List.sorted_insertionSort tsLE _
    · rw [List.sorted_cons]
      refine ⟨?_, ?_⟩
      · intro b hb
        rcases List.mem_cons.mp hb with rfl | hb
        · exact le_of_lt h12
        · rcases List.mem_cons.mp hb with rfl | hb
          · exact le_of_lt (lt_trans h12 h23)
          · simp at hb
      · rw [List.sorted_cons]
        refine ⟨?_, ?_⟩
        · intro b hb
          rcases List.mem_cons.mp hb with rfl | hb
          · exact le_of_lt h23
          · simp at hb
        · simp [List.sorted_singleton]
    · simp only [List.map_cons, List.map_nil, List.nodup_cons, List.mem_cons,
        List.mem_singleton, List.not_mem_nil, List.nodup_nil]
      refine ⟨by simp only [or_false]; omega, by simp only [or_false]; omega, by simp⟩

/-- Witness for C5: a store holding three incoming messages out of directory
order is returned in ascending timestamp order. -/
theorem C5_getIncomingMessages_spec_witness :
    getIncomingMessages
      [⟨"m3.json", some ⟨"m3", "a", "me", MsgType.message, "c", 30, none⟩, 30⟩,
       ⟨"m1.json", some ⟨"m1", "a", "me", MsgType.message, "a", 10, none⟩, 10⟩,
       ⟨"m2.json", some ⟨"m2", "a", "me", MsgType.message, "b", 20, none⟩, 20⟩]
      "me"
      = [⟨"m1", "a", "me", MsgType.message, "a", 10, none⟩,
         ⟨"m2", "a", "me", MsgType.message, "b", 20, none⟩,
         ⟨"m3", "a", "me", MsgType.message, "c", 30, none⟩] :=
  (C5_getIncomingMessages_spec _ "me").2.2.2 _ _ _ (by decide) (by decide) (by decide)

/-- C2 as stated is false: when no `targetId` is given the source's
`isRelevant` is vacuously true (`!targetAgentId || ...`), so the history
includes a record in which the caller "me" is neither sender nor recipient. -/
theorem C2_counterexample :
    getMessageHistory
      [⟨"mx.json", some ⟨"mx", "x", "y", MsgType.message, "hi", 5, none⟩, 5⟩]
      "me" none 50
      = [⟨"mx", "x", "y", MsgType.message, "hi", 5, none⟩]
    ∧ ("x" : String) ≠ "me" ∧ ("y" : String) ≠ "me" := by decide

/-- C2 (amended): `getMessageHistory(targetId?, limit)` returns at most
`limit` records, sorted descending by `timestamp`; every returned record is a
persisted parseable record satisfying the source's relevance predicate
(when `targetId` is given: `targetId` or the caller is sender or recipient;
when `targetId` is absent: every record); and whenever at most `limit`
records are relevant the result is exactly (a permutation of) them. -/
theorem C2_getMessageHistory_spec (store : List MsgFile) (self : String)
    (targetId : Option String) (limit : Nat) :
    (getMessageHistory store self targetId limit).length ≤ limit ∧
    (getMessageHistory store self targetId limit).Sorted tsGE ∧
    (∀ m, m ∈ getMessageHistory store self targetId limit →
      ∃ f, f ∈ store ∧ strEndsWith f.name ".json" = true ∧ f.parsed = some m ∧
        isRelevant self targetId m = true) ∧
    ((historyOf store self targetId).length ≤ limit →
      (getMessageHistory store self targetId limit).Perm
        (historyOf store self targetId)) := by
  refine ⟨?_, ?_, ?_, ?_⟩
  · unfold getMessageHistory
    rw [List.length_take]
    exact min_le_left _ _
  · exact List.Pairwise.sublist (List.take_sublist _ _)
      (List.sorted_insertionSort tsGE _)
  · intro m hm
    have hm2 : m ∈ List.insertionSort tsGE (historyOf store self targetId) :=
      List.mem_of_mem_take hm
    have hm3 : m ∈ historyOf store self targetId :=
      (List.perm_insertionSort tsGE _).mem_iff.mp hm2
    exact (mem_historyOf store self targetId m).mp hm3
  · intro hlen
    unfold getMessageHistory
    rw [List.take_of_length_le]
    · exact List.perm_insertionSort tsGE _
    · rw [(List.perm_insertionSort tsGE _).length_eq]
      exact hlen

/-- Witness for C2 at a concrete store: two relevant records, limit 50. -/
theorem C2_getMessageHistory_spec_witness :
    getMessageHistory
      [⟨"m1.json", some ⟨"m1", "me", "y", MsgType.message, "a", 10, none⟩, 10⟩,
       ⟨"m2.json", some ⟨"m2", "y", "me", MsgType.message, "b", 20, none⟩, 20⟩]
      "me" (some "y") 50
      |>.Perm
      (historyOf
        [⟨"m1.json", some ⟨"m1", "me", "y", MsgType.message, "a", 10, none⟩, 10⟩,
         ⟨"m2.json", some ⟨"m2", "y", "me", MsgType.message, "b", 20, none⟩, 20⟩]
        "me" (some "y")) :=
  (C2_getMessageHistory_spec _ "me" (some "y") 50).2.2.2 (by decide)

/-- C3 as stated is false: `getAgentInfo` returns the persisted record
verbatim, so the stored `status` field determines the returned status (two
stores identical except for the stored `status` yield different results, and
a record whose `lastSeen` is ancient is still reported as stored). -/
theorem C3_counterexample :
    getAgentInfo [⟨"a.json", some ⟨"a", "n", "s", 0, AgentStatus.online⟩⟩] "a"
      = some ⟨"a", "n", "s", 0, AgentStatus.online⟩ ∧
    getAgentInfo [⟨"a.json", some ⟨"a", "n", "s", 0, AgentStatus.offline⟩⟩] "a"
      = some ⟨"a", "n", "s", 0, AgentStatus.offline⟩ := by decide

/-- C3 (amended): `listActiveAgents` recomputes every returned record's
`status` from `lastSeen` and the current time, but `getAgentInfo` returns the
persisted record as-is, stored `status` field included. -/
theorem C3_status_recomputation (files : List AgentFile) (now : Int)
    (agentId : String) (a : AgentInfo) :
    (∀ b, b ∈ listActiveAgents files now → b.status = statusOf now b.lastSeen) ∧
    (getAgentInfo files agentId = some a →
      ∃ f, f ∈ files ∧ f.name = agentId ++ ".json" ∧ f.parsed = some a) := by
  constructor
  · intro b hb
    obtain ⟨f, _, hg⟩ := List.mem_filterMap.mp hb
    obtain ⟨_, orig, _, rfl⟩ := (listFilter_eq_some now f b).mp hg
    rfl
  · intro hget
    unfold getAgentInfo at hget
    cases hfind : files.find? (fun f => f.name == agentId ++ ".json") with
    | none => rw [hfind] at hget; simp at hget
    | some f =>
      rw [hfind] at hget
      refine ⟨f, List.mem_of_find?_eq_some hfind, ?_, hget⟩
      have := List.find?_some hfind
      exact beq_iff_eq.mp this

/-- Witness for C3 at a concrete store: the one returned agent has its status
recomputed, and `getAgentInfo` locates the stored file. -/
theorem C3_status_recomputation_witness :
    (∀ b, b ∈ listActiveAgents [⟨"a.json", some ⟨"a", "n", "s", 0, AgentStatus.offline⟩⟩] 1 →
      b.status = statusOf 1 b.lastSeen) ∧
    (∃ f, f ∈ [(⟨"a.json", some ⟨"a", "n", "s", 0, AgentStatus.offline⟩⟩ : AgentFile)] ∧
      f.name = "a" ++ ".json" ∧ f.parsed = some ⟨"a", "n", "s", 0, AgentStatus.offline⟩) :=
  ⟨(C3_status_recomputation _ 1 "a" ⟨"a", "n", "s", 0, AgentStatus.offline⟩).1,
   (C3_status_recomputation _ 1 "a" ⟨"a", "n", "s", 0, AgentStatus.offline⟩).2 (by decide)⟩

theorem strEndsWith_append (x suffix : String) :
    strEndsWith (x ++ suffix) suffix = true := by
  unfold strEndsWith
  rw [String.data_append]
  exact List.isSuffixOf_iff_suffix.mpr (List.suffix_append _ _)

theorem putAgentFile_mem (files : List AgentFile) (name : String) (info : AgentInfo) :
    (⟨name, some info⟩ : AgentFile) ∈ putAgentFile files name info := by
  unfold putAgentFile
  by_cases h : files.any (fun f => f.name == name) = true
  · rw [if_pos h]
    obtain ⟨f, hf, hfn⟩ := List.any_eq_true.mp h
    refine List.mem_map.mpr ⟨f, hf, ?_⟩
    rw [if_pos hfn]
  · rw [if_neg h]
    exact List.mem_append_right _ (List.mem_singleton_self _)

/-- C6: every parseable `.json` record of the agents directory appears in
`listActiveAgents()`' result regardless of staleness (stale records stay
until explicitly removed), with status `offline` iff
`now - lastSeen ≥ 5 min = 300000 ms` and `online` iff strictly less; and an
agent registered at time `now` then listed at `now` is returned `online`. -/
theorem C6_listActiveAgents_threshold (files : List AgentFile) (now : Int)
    (f : AgentFile) (a : AgentInfo) (hf : f ∈ files)
    (hjson : strEndsWith f.name ".json" = true) (hp : f.parsed = some a)
    (m : ManagerState) (sessionName : String) (files0 : List AgentFile) :
    ({ a with status := statusOf now a.lastSeen } ∈ listActiveAgents files now ∧
      (statusOf now a.lastSeen = AgentStatus.offline ↔ 300000 ≤ now - a.lastSeen) ∧
      (statusOf now a.lastSeen = AgentStatus.online ↔ now - a.lastSeen < 300000)) ∧
    (⟨m.agentId, m.agentName, sessionName, now, AgentStatus.online⟩ : AgentInfo)
      ∈ listActiveAgents (registerAgent m sessionName now files0).1 now := by
  refine ⟨⟨?_, ?_, ?_⟩, ?_⟩
  · exact List.mem_filterMap.mpr
      ⟨f, hf, (listFilter_eq_some now f _).mpr ⟨hjson, a, hp, rfl⟩⟩
  · unfold statusOf
    by_cases hlt : now - a.lastSeen < 300000
    · rw [if_pos hlt]; simp; omega
    · rw [if_neg hlt]; simp; omega
  · unfold statusOf
    by_cases hlt : now - a.lastSeen < 300000
    · rw [if_pos hlt]; simpa using hlt
    · rw [if_neg hlt]; simp; omega
  · refine List.mem_filterMap.mpr ⟨⟨m.agentId ++ ".json",
      some ⟨m.agentId, m.agentName, sessionName, now, AgentStatus.online⟩⟩,
      putAgentFile_mem files0 _ _, ?_⟩
    refine (listFilter_eq_some now _ _).mpr
      ⟨strEndsWith_append m.agentId ".json", _, rfl, ?_⟩
    simp [statusOf]

/-- Witness for C6: a stale record (lastSeen 0, listed at t=400000) is still
returned, marked offline; a fresh registration listed at the same instant is
online. -/
theorem C6_listActiveAgents_threshold_witness :
    (({ (⟨"a", "n", "s", 0, AgentStatus.online⟩ : AgentInfo) with
          status := statusOf 400000 0 } ∈
        listActiveAgents
          [⟨"a.json", some ⟨"a", "n", "s", 0, AgentStatus.online⟩⟩] 400000) ∧
      (statusOf 400000 0 = AgentStatus.offline ↔ (300000 : Int) ≤ 400000 - 0) ∧
      (statusOf 400000 0 = AgentStatus.online ↔ (400000 : Int) - 0 < 300000)) ∧
    (⟨"ag", "nm", "sess", 400000, AgentStatus.online⟩ : AgentInfo)
      ∈ listActiveAgents (registerAgent ⟨"ag", "nm"⟩ "sess" 400000 []).1 400000 :=
  C6_listActiveAgents_threshold
    [⟨"a.json", some ⟨"a", "n", "s", 0, AgentStatus.online⟩⟩] 400000
    ⟨"a.json", some ⟨"a", "n", "s", 0, AgentStatus.online⟩⟩
    ⟨"a", "n", "s", 0, AgentStatus.online⟩
    (by decide) (by decide) rfl ⟨"ag", "nm"⟩ "sess" []

/-- C8: on the success path, `clearOldMessages(H)` keeps exactly the files
that are not (`.json` with mtime strictly before `now - H` hours), reports
in its summary string exactly the number of files it deleted, and a second
run on the resulting store (same `now`) deletes nothing. -/
theorem C8_clearOldMessages_spec (store : List MsgFile) (now : Int)
    (hoursOld : Int) :
    (∀ f, f ∈ (clearOldMessages store now hoursOld).1 ↔
      (f ∈ store ∧ ¬(strEndsWith f.name ".json" = true ∧
        f.mtime < now - hoursOld * 60 * 60 * 1000))) ∧
    (clearOldMessages store now hoursOld).2
      = "Deleted " ++
          toString (store.length - (clearOldMessages store now hoursOld).1.length)
          ++ " old messages" ∧
    clearOldMessages (clearOldMessages store now hoursOld).1 now hoursOld
      = ((clearOldMessages store now hoursOld).1, "Deleted 0 old messages") := by
  refine ⟨?_, ?_, ?_⟩
  · intro f
    unfold clearOldMessages
    dsimp only
    rw [List.mem_filter]
    constructor
    · rintro ⟨hmem, hq⟩
      refine ⟨hmem, ?_⟩
      rintro ⟨h1, h2⟩
      rw [Bool.not_eq_true', Bool.and_eq_false_iff] at hq
      rcases hq with hq | hq
      · exact absurd h1 (by simp [hq])
      · rw [decide_eq_false_iff_not] at hq
        exact hq h2
    · rintro ⟨hmem, hq⟩
      refine ⟨hmem, ?_⟩
      rw [Bool.not_eq_true', Bool.and_eq_false_iff]
      by_cases h1 : strEndsWith f.name ".json" = true
      · right
        rw [decide_eq_false_iff_not]
        intro h2
        exact hq ⟨h1, h2⟩
      · left
        exact Bool.not_eq_true _ ▸ (Bool.eq_false_iff.mpr h1)
  · unfold clearOldMessages
    dsimp only
    have hpart := List.length_eq_length_filter_add (l := store)
      (fun f => strEndsWith f.name ".json" &&
        decide (f.mtime < now - hoursOld * 60 * 60 * 1000))
    have hc := List.countP_eq_length_filter
      (fun f => strEndsWith f.name ".json" &&
        decide (f.mtime < now - hoursOld * 60 * 60 * 1000)) (l := store)
    have hn : store.countP
        (fun f => strEndsWith f.name ".json" &&
          decide (f.mtime < now - hoursOld * 60 * 60 * 1000))
        = store.length - (store.filter (fun f => !(strEndsWith f.name ".json" &&
            decide (f.mtime < now - hoursOld * 60 * 60 * 1000)))).length := by
      omega
    rw [hn]
  · unfold clearOldMessages
    dsimp only
    rw [Prod.mk.injEq]
    constructor
    · rw [List.filter_filter]
      congr 1
      funext a
      cases strEndsWith a.name ".json" &&
        decide (a.mtime < now - hoursOld * 60 * 60 * 1000) <;> rfl
    · have hzero : (List.filter (fun f => !(strEndsWith f.name ".json" &&
          decide (f.mtime < now - hoursOld * 60 * 60 * 1000))) store).countP
          (fun f => strEndsWith f.name ".json" &&
            decide (f.mtime < now - hoursOld * 60 * 60 * 1000)) = 0 := by
        rw [List.countP_eq_zero]
        intro a ha
        have := (List.mem_filter.mp ha).2
        rw [Bool.not_eq_true'] at this
        simp [this]
      rw [hzero]
      rfl

theorem find_putAgentFile (files : List AgentFile) (name : String)
    (info : AgentInfo) :
    (putAgentFile files name info).find? (fun f => f.name == name)
      = some ⟨name, some info⟩ := by
  unfold putAgentFile
  by_cases h : files.any (fun f => f.name == name) = true
  · rw [if_pos h]
    induction files with
    | nil => simp at h
    | cons f fs ih =>
      rw [List.map_cons]
      by_cases hf : (f.name == name) = true
      · rw [if_pos hf, List.find?_cons_of_pos _ (by simp)]
      · rw [if_neg hf]
        rw [Bool.not_eq_true] at hf
        rw [List.find?_cons, hf]
        refine ih ?_
        rcases List.any_eq_true.mp h with ⟨g, hg, hgn⟩
        rcases List.mem_cons.mp hg with rfl | hg
        · rw [hgn] at hf; cases hf
        · exact List.any_eq_true.mpr ⟨g, hg, hgn⟩
  · rw [if_neg h]
    induction files with
    | nil => exact List.find?_cons_of_pos _ (by simp)
    | cons f fs ih =>
      have hf : (f.name == name) = false := by
        cases hb : (f.name == name) with
        | false => rfl
        | true =>
          exact absurd (List.any_eq_true.mpr ⟨f, List.mem_cons_self f fs, hb⟩) h
      rw [List.cons_append, List.find?_cons, hf]
      refine ih ?_
      intro h2
      refine h ?_
      rcases List.any_eq_true.mp h2 with ⟨g, hg, hgn⟩
      exact List.any_eq_true.mpr ⟨g, List.mem_cons_of_mem f hg, hgn⟩

/-- C10: the agent identifier is fixed at construction; every
`registerAgent` call in the same process writes a record carrying that same
identifier to the same file `agents/<agentId>.json` (a second call overwrites
the first record rather than creating another), and every confirmation
string reports that same identifier. -/
theorem C10_register_stable_identity (m : ManagerState) (s1 s2 : String)
    (t1 t2 : Int) (files : List AgentFile) :
    (registerAgent m s1 t1 files).2
      = "Agent \"" ++ m.agentName ++ "\" registered with ID: " ++ m.agentId ∧
    (registerAgent m s2 t2 (registerAgent m s1 t1 files).1).2
      = (registerAgent m s1 t1 files).2 ∧
    getAgentInfo (registerAgent m s1 t1 files).1 m.agentId
      = some ⟨m.agentId, m.agentName, s1, t1, AgentStatus.online⟩ ∧
    getAgentInfo (registerAgent m s2 t2 (registerAgent m s1 t1 files).1).1 m.agentId
      = some ⟨m.agentId, m.agentName, s2, t2, AgentStatus.online⟩ ∧
    (registerAgent m s2 t2 (registerAgent m s1 t1 files).1).1.length
      = (registerAgent m s1 t1 files).1.length := by
  refine ⟨rfl, rfl, ?_, ?_, ?_⟩
  · unfold getAgentInfo registerAgent
    rw [find_putAgentFile]
  · unfold getAgentInfo registerAgent
    rw [find_putAgentFile]
  · have hmem : ((registerAgent m s1 t1 files).1.any
        (fun f => f.name == m.agentId ++ ".json")) = true :=
      List.any_eq_true.mpr ⟨⟨m.agentId ++ ".json",
        some ⟨m.agentId, m.agentName, s1, t1, AgentStatus.online⟩⟩,
        putAgentFile_mem _ _ _, by simp⟩
    show (putAgentFile _ _ _).length = _
    rw [putAgentFile, if_pos hmem, List.length_map]

/-- C7: for both send operations, whenever persisting the record succeeds the
call returns `Except.ok` with the record appended to the store — for every
delivery outcome, including a failed one — so live-delivery failure is only
reflected in the returned string and never deletes or modifies the persisted
record; whereas a persistence failure propagates as an error. -/
theorem C7_delivery_failure_handling (self : String) (agents : List AgentFile)
    (store : List MsgFile) (newId : String) (now : Int)
    (target content command : String) (ty : MsgType) (si : Option SessionInfo)
    (delivery : Except String Unit) :
    (∃ s, sendMessage self agents store newId now true delivery target content ty
        = Except.ok (store ++ [⟨newId ++ ".json",
            some ⟨newId, self, target, ty, content, now, none⟩, now⟩], s)) ∧
    (∃ s tgt, sendCommandToAgent self agents store newId now true delivery target
        command si
        = Except.ok (store ++ [⟨newId ++ ".json",
            some ⟨newId, self, target, MsgType.command, command, now, si⟩, now⟩],
            s, tgt)) ∧
    sendMessage self agents store newId now false delivery target content ty
      = Except.error "writeFile failed" ∧
    sendCommandToAgent self agents store newId now false delivery target command si
      = Except.error "writeFile failed" := by
  refine ⟨?_, ?_, ?_, ?_⟩
  · unfold sendMessage
    rw [if_pos rfl]
    by_cases hty : ty = MsgType.message
    · rw [if_pos hty]
      cases getAgentInfo agents target with
      | none => exact ⟨_, rfl⟩
      | some targetAgent =>
        dsimp only
        by_cases hsess : targetAgent.session ≠ ""
        · rw [if_pos hsess]
          cases delivery with
          | ok u => exact ⟨_, rfl⟩
          | error e => exact ⟨_, rfl⟩
        · rw [if_neg hsess]
          exact ⟨_, rfl⟩
    · rw [if_neg hty]
      exact ⟨_, rfl⟩
  · unfold sendCommandToAgent
    rw [if_pos rfl]
    cases si with
    | some s0 =>
      cases delivery with
      | ok u => exact ⟨_, _, rfl⟩
      | error e => exact ⟨_, _, rfl⟩
    | none =>
      cases getAgentInfo agents target with
      | none => exact ⟨_, _, rfl⟩
      | some targetAgent =>
        dsimp only
        by_cases hsess : targetAgent.session ≠ ""
        · rw [if_pos hsess]
          cases delivery with
          | ok u => exact ⟨_, _, rfl⟩
          | error e => exact ⟨_, _, rfl⟩
        · rw [if_neg hsess]
          exact ⟨_, _, rfl⟩
  · unfold sendMessage
    rw [if_neg (by simp)]
  · unfold sendCommandToAgent
    rw [if_neg (by simp)]

/-- C9: delivery-target resolution of `sendCommandToAgent`.  With explicit
`sessionInfo` the result does not depend on the agents registry at all, and
the tmux target used is `sessionInfo.pane` if present, else
`session:window` with the window defaulting to `"0"`.  Without `sessionInfo`,
when the registry holds the target agent with a non-empty session, the tmux
target used is that registered session with the fixed window index `0`. -/
theorem C9_target_resolution (self : String) (agents agents2 : List AgentFile)
    (store : List MsgFile) (newId : String) (now : Int)
    (delivery : Except String Unit) (target command : String)
    (si : SessionInfo) (ta : AgentInfo) :
    (sendCommandToAgent self agents store newId now true delivery target command
        (some si)
      = sendCommandToAgent self agents2 store newId now true delivery target
          command (some si)) ∧
    (∃ st s, sendCommandToAgent self agents store newId now true delivery target
        command (some si)
      = Except.ok (st, s, some (match si.pane with
          | some p => p
          | none => si.session ++ ":" ++
              (match si.window with | some w => w | none => "0")))) ∧
    (getAgentInfo agents target = some ta → ta.session ≠ "" →
      ∃ st s, sendCommandToAgent self agents store newId now true delivery target
          command none
        = Except.ok (st, s, some (ta.session ++ ":0"))) := by
  refine ⟨?_, ?_, ?_⟩
  · rfl
  · unfold sendCommandToAgent
    rw [if_pos rfl]
    cases delivery with
    | ok u => exact ⟨_, _, rfl⟩
    | error e => exact ⟨_, _, rfl⟩
  · intro hget hsess
    unfold sendCommandToAgent
    rw [if_pos rfl]
    dsimp only
    rw [hget]
    dsimp only
    rw [if_pos hsess]
    cases delivery with
    | ok u => exact ⟨_, _, rfl⟩
    | error e => exact ⟨_, _, rfl⟩

/-- Witness for C9 at concrete inputs: with explicit sessionInfo carrying a
pane the target is the pane; without sessionInfo the registered session with
window 0 is used. -/
theorem C9_target_resolution_witness :
    (∃ st s, sendCommandToAgent "me"
        [⟨"bob.json", some ⟨"bob", "b", "bsess", 0, AgentStatus.online⟩⟩]
        [] "c1" 100 true (Except.ok ()) "bob" "ls"
        (some ⟨"s1", some "2", some "%7"⟩)
      = Except.ok (st, s, some "%7")) ∧
    (∃ st s, sendCommandToAgent "me"
        [⟨"bob.json", some ⟨"bob", "b", "bsess", 0, AgentStatus.online⟩⟩]
        [] "c1" 100 true (Except.ok ()) "bob" "ls" none
      = Except.ok (st, s, some ("bsess" ++ ":0"))) :=
  ⟨(C9_target_resolution "me" _ [] [] "c1" 100 (Except.ok ()) "bob" "ls"
      ⟨"s1", some "2", some "%7"⟩ ⟨"bob", "b", "bsess", 0, AgentStatus.online⟩).2.1,
   (C9_target_resolution "me"
      [⟨"bob.json", some ⟨"bob", "b", "bsess", 0, AgentStatus.online⟩⟩] []
      [] "c1" 100 (Except.ok ()) "bob" "ls"
      ⟨"s1", some "2", some "%7"⟩ ⟨"bob", "b", "bsess", 0, AgentStatus.online⟩).2.2
      (by decide) (by decide)⟩

/-- The command-typed records of a message list, in order. -/
def commandsOf (ms : List AgentMessage) : List AgentMessage :=
  ms.filter fun m => decide (m.type = MsgType.command)

/-- The execution-result strings `processIncomingCommands` pushes, one per
command. -/
def cmdResults (ms : List AgentMessage) : List String :=
  (commandsOf ms).map fun m =>
    "Processed command from " ++ m.from_ ++ ": " ++ m.content

/-- A message file survives command processing iff its name is none of the
processed commands' `<id>.json` names. -/
def survives (cmds : List AgentMessage) (f : MsgFile) : Bool :=
  cmds.all fun m => f.name != m.id ++ ".json"

theorem runCommands_spec (self : String) (freshId : Nat → String) (now : Int)
    (ms : List AgentMessage) :
    ∀ (k : Nat) (st : List MsgFile),
      (∀ j, ∀ m ∈ ms, m.type = MsgType.command →
        freshId j ++ ".json" ≠ m.id ++ ".json") →
      runCommands self freshId now k ms st
        = (cmdResults ms,
           st.filter (survives (commandsOf ms))
             ++ ackFiles self freshId now k (commandsOf ms)) := by
  induction ms with
  | nil =>
    intro k st _
    simp only [runCommands, cmdResults, commandsOf, ackFiles, List.filter_nil,
      List.map_nil]
    exact Prod.ext rfl (by rw [List.append_nil]; exact (List.filter_true st).symm)
  | cons m ms ih =>
    intro k st hfresh
    have hfresh2 : ∀ j, ∀ m2 ∈ ms, m2.type = MsgType.command →
        freshId j ++ ".json" ≠ m2.id ++ ".json" :=
      fun j m2 hm2 ht2 => hfresh j m2 (List.mem_cons_of_mem m hm2) ht2
    by_cases hty : m.type = MsgType.command
    · have hcmds : commandsOf (m :: ms) = m :: commandsOf ms := by
        unfold commandsOf
        rw [List.filter_cons_of_pos]
        exact decide_eq_true hty
      have hres : cmdResults (m :: ms)
          = ("Processed command from " ++ m.from_ ++ ": " ++ m.content)
              :: cmdResults ms := by
        unfold cmdResults
        rw [hcmds, List.map_cons]
      simp only [runCommands]
      rw [if_pos hty]
      rw [ih (k + 1) _ hfresh2, hres, hcmds]
      refine Prod.ext rfl ?_
      dsimp only
      have hackpred : (mkAck self freshId now k m).name != m.id ++ ".json" := by
        refine bne_iff_ne.mpr ?_
        exact hfresh k m (List.mem_cons_self m ms) hty
      have hdel : deleteFile (st ++ [mkAck self freshId now k m]) (m.id ++ ".json")
          = st.filter (fun f => f.name != m.id ++ ".json")
            ++ [mkAck self freshId now k m] := by
        unfold deleteFile
        rw [List.filter_append]
        congr 1
        rw [List.filter_cons, hackpred]
        rfl
      rw [hdel, List.filter_append]
      have hacksurv : List.filter (survives (commandsOf ms))
          [mkAck self freshId now k m] = [mkAck self freshId now k m] := by
        rw [List.filter_cons]
        have : survives (commandsOf ms) (mkAck self freshId now k m) = true := by
          refine List.all_eq_true.mpr ?_
          intro m2 hm2
          refine bne_iff_ne.mpr ?_
          have hm2ms : m2 ∈ ms := List.mem_of_mem_filter hm2
          have hm2ty : m2.type = MsgType.command := by
            have := List.of_mem_filter hm2
            exact of_decide_eq_true this
          exact hfresh k m2 (List.mem_cons_of_mem m hm2ms) hm2ty
        rw [this]
        rfl
      rw [hacksurv, List.filter_filter]
      have hsurvcons : (fun f => survives (commandsOf ms) f &&
            (f.name != m.id ++ ".json"))
          = survives (m :: commandsOf ms) := by
        funext f
        unfold survives
        rw [List.all_cons]
        exact Bool.and_comm _ _
      rw [hsurvcons, List.append_assoc]
      rfl
    · have hcmds : commandsOf (m :: ms) = commandsOf ms := by
        unfold commandsOf
        rw [List.filter_cons_of_neg]
        exact fun h => hty (of_decide_eq_true h)
      simp only [runCommands]
      rw [if_neg hty]
      rw [ih k st hfresh2]
      rw [hcmds]
      unfold cmdResults
      rw [hcmds]

theorem mem_ackFiles (self : String) (freshId : Nat → String) (now : Int)
    (ms : List AgentMessage) :
    ∀ (k : Nat) (g : MsgFile), g ∈ ackFiles self freshId now k ms →
      ∃ j m, m ∈ ms ∧ g = mkAck self freshId now j m := by
  induction ms with
  | nil =>
    intro k g hg
    simp [ackFiles] at hg
  | cons m ms ih =>
    intro k g hg
    simp only [ackFiles] at hg
    rcases List.mem_cons.mp hg with rfl | hg2
    · exact ⟨k, m, List.mem_cons_self m ms, rfl⟩
    · obtain ⟨j, m2, hm2, heq⟩ := ih (k + 1) g hg2
      exact ⟨j, m2, List.mem_cons_of_mem m hm2, heq⟩

theorem ackFiles_length (self : String) (freshId : Nat → String) (now : Int)
    (ms : List AgentMessage) :
    ∀ k, (ackFiles self freshId now k ms).length = ms.length := by
  induction ms with
  | nil => intro k; rfl
  | cons m ms ih =>
    intro k
    simp only [ackFiles, List.length_cons]
    rw [ih (k + 1)]

/-- C1 as stated is false: the acknowledgement persisted by
`processIncomingCommands` goes through `sendMessage(..., 'message')`, so its
type is `message`, not `response`.  After processing one command the store
holds no `response`-typed record at all, but exactly one `message`-typed
acknowledgement addressed to the command's sender. -/
theorem C1_counterexample :
    ((processIncomingCommands "me" (fun _ => "ack") 100
        [⟨"c1.json", some ⟨"c1", "alice", "me", MsgType.command, "ls", 1, none⟩,
          1⟩]).2.filterMap MsgFile.parsed).countP
        (fun a => decide (a.type = MsgType.response)) = 0 ∧
    ((processIncomingCommands "me" (fun _ => "ack") 100
        [⟨"c1.json", some ⟨"c1", "alice", "me", MsgType.command, "ls", 1, none⟩,
          1⟩]).2.filterMap MsgFile.parsed).countP
        (fun a => decide (a.type = MsgType.message ∧ a.to_ = "alice")) = 1 := by
  decide

/-- C1 (amended): on the success path, `processIncomingCommands()` produces
one execution-description string per incoming `command` record, persists
exactly one acknowledgement per processed command — addressed to the
command's sender, but of type `message` rather than `response` — and deletes
each processed command's record file; every stored record whose type is not
`command` (and every record not addressed to the caller) is left untouched.
Hypotheses: record files are named `<id>.json`, file names are distinct, and
fresh UUIDs do not collide with existing names. -/
theorem C1_processIncomingCommands_spec (store : List MsgFile) (self : String)
    (freshId : Nat → String) (now : Int)
    (hwf : ∀ f ∈ store, ∀ m, f.parsed = some m → f.name = m.id ++ ".json")
    (hnames : (store.map MsgFile.name).Nodup)
    (hfresh : ∀ j, ∀ f ∈ store, freshId j ++ ".json" ≠ f.name) :
    (processIncomingCommands self freshId now store).1
      = cmdResults (getIncomingMessages store self) ∧
    (processIncomingCommands self freshId now store).2
      = store.filter (survives (commandsOf (getIncomingMessages store self)))
        ++ ackFiles self freshId now 0
            (commandsOf (getIncomingMessages store self)) ∧
    (∀ f ∈ store, (∀ m, f.parsed = some m → m.type ≠ MsgType.command) →
      f ∈ (processIncomingCommands self freshId now store).2) ∧
    (∀ f ∈ store, f ∉ (processIncomingCommands self freshId now store).2 →
      ∃ m, f.parsed = some m ∧ m.type = MsgType.command ∧ m.to_ = self) ∧
    (∀ g ∈ ackFiles self freshId now 0
        (commandsOf (getIncomingMessages store self)),
      ∃ j m, m ∈ commandsOf (getIncomingMessages store self) ∧
        g.parsed = some ⟨freshId j, self, m.from_, MsgType.message,
          "Command executed: " ++ m.content, now, none⟩) ∧
    (ackFiles self freshId now 0
        (commandsOf (getIncomingMessages store self))).length
      = (commandsOf (getIncomingMessages store self)).length := by
  have hincoming : ∀ m ∈ getIncomingMessages store self,
      ∃ f, f ∈ store ∧ strEndsWith f.name ".json" = true ∧
        f.parsed = some m ∧ m.to_ = self := by
    intro m hm
    exact (mem_incomingOf store self m).mp
      ((List.perm_insertionSort tsLE _).mem_iff.mp hm)
  have hfresh2 : ∀ j, ∀ m ∈ getIncomingMessages store self,
      m.type = MsgType.command → freshId j ++ ".json" ≠ m.id ++ ".json" := by
    intro j m hm _
    obtain ⟨f, hf, _, hp, _⟩ := hincoming m hm
    rw [← hwf f hf m hp]
    exact hfresh j f hf
  have hrun := runCommands_spec self freshId now
    (getIncomingMessages store self) 0 store hfresh2
  have hkey : ∀ m ∈ commandsOf (getIncomingMessages store self),
      ∀ f ∈ store, f.name = m.id ++ ".json" →
        f.parsed = some m ∧ m.type = MsgType.command ∧ m.to_ = self := by
    intro m hm f hf hname
    have hmem2 := List.mem_filter.mp hm
    have hty := of_decide_eq_true hmem2.2
    obtain ⟨g, hg, _, hgp, hto⟩ := hincoming m hmem2.1
    have hgname : g.name = m.id ++ ".json" := hwf g hg m hgp
    have hfg : f = g := List.inj_on_of_nodup_map hnames hf hg
      (by rw [hname, hgname])
    exact ⟨hfg ▸ hgp, hty, hto⟩
  have hsurv_of : ∀ f ∈ store,
      (∀ m, f.parsed = some m → m.type ≠ MsgType.command ∨ m.to_ ≠ self) →
      survives (commandsOf (getIncomingMessages store self)) f = true := by
    intro f hf hnc
    refine List.all_eq_true.mpr ?_
    intro m hm
    refine bne_iff_ne.mpr ?_
    intro heq
    obtain ⟨hfp, hty, hto⟩ := hkey m hm f hf heq
    rcases hnc m hfp with h | h
    · exact h hty
    · exact h hto
  refine ⟨?_, ?_, ?_, ?_, ?_, ?_⟩
  · show (runCommands self freshId now 0 (getIncomingMessages store self)
      store).1 = _
    rw [hrun]
  · show (runCommands self freshId now 0 (getIncomingMessages store self)
      store).2 = _
    rw [hrun]
  · intro f hf hnc
    have hsurv := hsurv_of f hf (fun m hm => Or.inl (hnc m hm))
    show f ∈ (runCommands self freshId now 0 (getIncomingMessages store self)
      store).2
    rw [hrun]
    exact List.mem_append_left _ (List.mem_filter.mpr ⟨hf, hsurv⟩)
  · intro f hf hnotin
    by_contra hcon
    push_neg at hcon
    refine hnotin ?_
    have hsurv : survives (commandsOf (getIncomingMessages store self)) f
        = true := by
      refine List.all_eq_true.mpr ?_
      intro m hm
      refine bne_iff_ne.mpr ?_
      intro heq
      obtain ⟨hfp, hty, hto⟩ := hkey m hm f hf heq
      exact hcon m hfp hty hto
    show f ∈ (runCommands self freshId now 0 (getIncomingMessages store self)
      store).2
    rw [hrun]
    exact List.mem_append_left _ (List.mem_filter.mpr ⟨hf, hsurv⟩)
  · intro g hg
    obtain ⟨j, m, hm, rfl⟩ := mem_ackFiles self freshId now _ 0 g hg
    exact ⟨j, m, hm, rfl⟩
  · exact ackFiles_length self freshId now _ 0

/-- Witness for C1 at a concrete store: one command from "alice" to "me" is
executed, acknowledged with a `message`-typed record to "alice", and its
record file is deleted. -/
theorem C1_processIncomingCommands_spec_witness :
    (processIncomingCommands "me" (fun _ => "ack") 100
        [⟨"c1.json", some ⟨"c1", "alice", "me", MsgType.command, "ls", 1, none⟩,
          1⟩]).1
      = ["Processed command from alice: ls"] ∧
    (processIncomingCommands "me" (fun _ => "ack") 100
        [⟨"c1.json", some ⟨"c1", "alice", "me", MsgType.command, "ls", 1, none⟩,
          1⟩]).2
      = [⟨"ack" ++ ".json", some ⟨"ack", "me", "alice", MsgType.message,
          "Command executed: " ++ "ls", 100, none⟩, 100⟩] := by
  have h := C1_processIncomingCommands_spec
    [⟨"c1.json", some ⟨"c1", "alice", "me", MsgType.command, "ls", 1, none⟩, 1⟩]
    "me" (fun _ => "ack") 100
    (by
      intro f hf m hp
      rw [List.mem_singleton] at hf
      subst hf
      obtain rfl := Option.some_inj.mp hp
      rfl)
    (by decide)
    (by
      intro j f hf
      rw [List.mem_singleton] at hf
      subst hf
      exact (by decide : ("ack" : String) ++ ".json" ≠ "c1.json"))
  exact ⟨h.1.trans (by decide), h.2.1.trans (by decide)⟩

/-- A value returned by a successful `JSON.parse`, seen through the only
observations the subsystem makes of it.  The source performs no shape
validation, so the value may have any shape; each field here records one
observation: `lastSeenMs` is `new Date(v.lastSeen).getTime()` with `none`
for `NaN` (field missing or not a date), `fromStr`/`toStr` are `v.from` /
`v.to` when these are strings (a `===` comparison with a string can only
succeed on a string) and `none` otherwise, `timestampMs` is
`new Date(v.timestamp).getTime()` with `none` for `NaN`.  The JSON value
`{}` is `⟨none, none, none, none⟩`. -/
structure JsValue where
  lastSeenMs : Option Int
  fromStr : Option String
  toStr : Option String
  timestampMs : Option Int
  deriving DecidableEq, Repr

/-- The content of a raw record file: `JSON.parse` either throws (caught by
the per-file try/catch) or yields a value of arbitrary shape. -/
inductive JsContent
  | unparseable
  | value (v : JsValue)
  deriving DecidableEq, Repr

/-- One raw file of a record directory. -/
structure JsFile where
  name : String
  content : JsContent
  deriving DecidableEq, Repr

/-- The status `listActiveAgents` assigns to a parsed value: when
`lastSeenMs` is `NaN` the comparison `diffMinutes < 5` is false (`NaN < 5`),
so control falls into the else branch and the entry is marked `offline`. -/
def jsStatusOf (now : Int) (lastSeenMs : Option Int) : AgentStatus :=
  match lastSeenMs with
  | some t =>
    if now - t < 300000 then AgentStatus.online else AgentStatus.offline
  | none => AgentStatus.offline

/-- The per-file step of `listActiveAgents` over raw files: only a thrown
parse error is skipped; any successfully parsed value — well-shaped or not —
is pushed with a status. -/
def jsListFilter (now : Int) (f : JsFile) : Option (JsValue × AgentStatus) :=
  if strEndsWith f.name ".json" then
    match f.content with
    | JsContent.unparseable => none
    | JsContent.value v => some (v, jsStatusOf now v.lastSeenMs)
  else none

/-- `listActiveAgents()` over raw files: the returned entry is the parsed
object together with the `status` the loop assigned to it. -/
def listActiveAgentsJs (files : List JsFile) (now : Int) :
    List (JsValue × AgentStatus) :=
  files.filterMap (jsListFilter now)

/-- The JS sort comparator
`new Date(a.timestamp).getTime() - new Date(b.timestamp).getTime()` as a
"may come before" test: when either side is `NaN` the comparator result is
`NaN`, which the sort treats as `0` (neither `< 0` nor `> 0`), i.e. as
equal. -/
def jsTsLEb (a b : JsValue) : Bool :=
  match a.timestampMs, b.timestampMs with
  | some ta, some tb => decide (ta ≤ tb)
  | _, _ => true

/-- Ascending raw-value ordering (see `jsTsLEb`). -/
def jsTsLE (a b : JsValue) : Prop := jsTsLEb a b = true

/-- Descending raw-value ordering (see `jsTsLEb`). -/
def jsTsGE (a b : JsValue) : Prop := jsTsLEb b a = true

instance : DecidableRel jsTsLE := fun a b =>
  inferInstanceAs (Decidable (jsTsLEb a b = true))

instance : DecidableRel jsTsGE := fun a b =>
  inferInstanceAs (Decidable (jsTsLEb b a = true))

/-- The per-file step of `getIncomingMessages` over raw files:
`message.to === this.agentId` holds exactly when the parsed value's `to`
field is that string; only a thrown parse error is skipped. -/
def jsIncomingFilter (self : String) (f : JsFile) : Option JsValue :=
  if strEndsWith f.name ".json" then
    match f.content with
    | JsContent.unparseable => none
    | JsContent.value v => if v.toStr == some self then some v else none
  else none

/-- `getIncomingMessages()` over raw files. -/
def getIncomingMessagesJs (store : List JsFile) (self : String) :
    List JsValue :=
  List.insertionSort jsTsLE (store.filterMap (jsIncomingFilter self))

/-- `isRelevant` over a raw parsed value: with no `targetAgentId` it is
vacuously true for any value, junk included. -/
def jsIsRelevant (self : String) (targetId : Option String) (v : JsValue) :
    Bool :=
  match targetId with
  | none => true
  | some t => v.fromStr == some t || v.toStr == some t ||
      v.fromStr == some self || v.toStr == some self

/-- The per-file step of `getMessageHistory` over raw files. -/
def jsHistoryFilter (self : String) (targetId : Option String) (f : JsFile) :
    Option JsValue :=
  if strEndsWith f.name ".json" then
    match f.content with
    | JsContent.unparseable => none
    | JsContent.value v => if jsIsRelevant self targetId v then some v else none
  else none

/-- The filtering pass of `getMessageHistory` over raw files. -/
def historyOfJs (store : List JsFile) (self : String)
    (targetId : Option String) : List JsValue :=
  store.filterMap (jsHistoryFilter self targetId)

/-- `getMessageHistory(targetAgentId?, limit)` over raw files. -/
def getMessageHistoryJs (store : List JsFile) (self : String)
    (targetId : Option String) (limit : Nat) : List JsValue :=
  (List.insertionSort jsTsGE (historyOfJs store self targetId)).take limit

theorem jsListFilter_eq_some (now : Int) (f : JsFile)
    (p : JsValue × AgentStatus) :
    jsListFilter now f = some p ↔
      strEndsWith f.name ".json" = true ∧
        f.content = JsContent.value p.1 ∧ p.2 = jsStatusOf now p.1.lastSeenMs := by
  rcases f with ⟨fn, fc⟩
  unfold jsListFilter
  dsimp only
  by_cases hj : strEndsWith fn ".json" = true
  · rw [if_pos hj]
    cases fc with
    | unparseable => simp [hj]
    | value v =>
      simp only [hj, true_and, Option.some_inj, JsContent.value.injEq]
      constructor
      · rintro rfl; exact ⟨rfl, rfl⟩
      · rcases p with ⟨pv, ps⟩
        rintro ⟨h1, h2⟩
        dsimp only at h1 h2
        subst h1
        subst h2
        rfl
  · rw [if_neg hj]
    simp [hj]

theorem jsIncomingFilter_eq_some (self : String) (f : JsFile) (v : JsValue) :
    jsIncomingFilter self f = some v ↔
      strEndsWith f.name ".json" = true ∧
        f.content = JsContent.value v ∧ v.toStr = some self := by
  rcases f with ⟨fn, fc⟩
  unfold jsIncomingFilter
  dsimp only
  by_cases hj : strEndsWith fn ".json" = true
  · rw [if_pos hj]
    cases fc with
    | unparseable => simp [hj]
    | value v2 =>
      by_cases hto : v2.toStr = some self
      · simp only [hj, true_and, beq_iff_eq, hto, if_pos, Option.some_inj,
          JsContent.value.injEq]
        constructor
        · rintro rfl; exact ⟨rfl, hto⟩
        · rintro ⟨h, _⟩; exact h
      · simp only [beq_iff_eq, hto, if_neg, hj, true_and, JsContent.value.injEq]
        constructor
        · rintro h; simp at h
        · rintro ⟨h, h2⟩
          subst h
          exact absurd h2 hto
  · rw [if_neg hj]
    simp [hj]

theorem jsHistoryFilter_eq_some (self : String) (targetId : Option String)
    (f : JsFile) (v : JsValue) :
    jsHistoryFilter self targetId f = some v ↔
      strEndsWith f.name ".json" = true ∧
        f.content = JsContent.value v ∧ jsIsRelevant self targetId v = true := by
  rcases f with ⟨fn, fc⟩
  unfold jsHistoryFilter
  dsimp only
  by_cases hj : strEndsWith fn ".json" = true
  · rw [if_pos hj]
    cases fc with
    | unparseable => simp [hj]
    | value v2 =>
      by_cases hrel : jsIsRelevant self targetId v2 = true
      · simp only [hj, true_and, hrel, if_pos, Option.some_inj,
          JsContent.value.injEq]
        constructor
        · rintro rfl; exact ⟨rfl, hrel⟩
        · rintro ⟨h, _⟩; exact h
      · simp only [hrel, if_neg, hj, true_and, JsContent.value.injEq]
        constructor
        · rintro h; simp at h
        · rintro ⟨h, h2⟩
          subst h
          exact absurd h2 hrel
  · rw [if_neg hj]
    simp [hj]

/-- C4 as stated is false: the source validates nothing beyond `JSON.parse`
throwing, so a JSON-valid file of the wrong shape — here `{}`, the value
observing `none` in every field — is not skipped.  `listActiveAgents`
returns it as a garbage entry marked `offline` (the `NaN < 5` comparison
falls into the else branch), `getMessageHistory` with no `targetId` returns
it, and a junk file whose `to` field happens to hold the caller's id is
returned by `getIncomingMessages`.  Only a file on which `JSON.parse`
throws is skipped. -/
theorem C4_counterexample :
    listActiveAgentsJs
        [⟨"junk.json", JsContent.value ⟨none, none, none, none⟩⟩] 1000
      = [(⟨none, none, none, none⟩, AgentStatus.offline)] ∧
    getMessageHistoryJs
        [⟨"junk.json", JsContent.value ⟨none, none, none, none⟩⟩] "me" none 50
      = [⟨none, none, none, none⟩] ∧
    getIncomingMessagesJs
        [⟨"junk2.json", JsContent.value ⟨none, none, some "me", none⟩⟩] "me"
      = [⟨none, none, some "me", none⟩] ∧
    listActiveAgentsJs [⟨"bad.json", JsContent.unparseable⟩] 1000 = [] := by
  decide

/-- C4 (amended): the listing operations are total (never throw because of a
corrupted entry) and silently skip exactly the files on which `JSON.parse`
throws: inserting such a file anywhere changes no listing's result.  A
JSON-valid file that does not match the expected record shape is NOT
skipped: `listActiveAgents` returns every parsed `.json` value with the
status computed by `jsStatusOf` (`offline` whenever `lastSeen` is missing or
invalid), `getIncomingMessages` returns every parsed value whose `to` field
equals the caller's id, and `getMessageHistory`'s filtering pass keeps every
parsed value satisfying `isRelevant` — vacuously all of them when `targetId`
is absent — with the whole result being exactly that pass whenever it fits
`limit`. -/
theorem C4_parse_failures_only_thrown (pre post store : List JsFile)
    (name : String) (now : Int) (self : String) (targetId : Option String)
    (limit : Nat) (v : JsValue) (s : AgentStatus) :
    (listActiveAgentsJs (pre ++ [⟨name, JsContent.unparseable⟩] ++ post) now
        = listActiveAgentsJs (pre ++ post) now ∧
      getIncomingMessagesJs (pre ++ [⟨name, JsContent.unparseable⟩] ++ post)
          self
        = getIncomingMessagesJs (pre ++ post) self ∧
      getMessageHistoryJs (pre ++ [⟨name, JsContent.unparseable⟩] ++ post)
          self targetId limit
        = getMessageHistoryJs (pre ++ post) self targetId limit) ∧
    ((v, s) ∈ listActiveAgentsJs store now ↔
      ∃ f ∈ store, strEndsWith f.name ".json" = true ∧
        f.content = JsContent.value v ∧ s = jsStatusOf now v.lastSeenMs) ∧
    (v ∈ getIncomingMessagesJs store self ↔
      ∃ f ∈ store, strEndsWith f.name ".json" = true ∧
        f.content = JsContent.value v ∧ v.toStr = some self) ∧
    (v ∈ historyOfJs store self targetId ↔
      ∃ f ∈ store, strEndsWith f.name ".json" = true ∧
        f.content = JsContent.value v ∧ jsIsRelevant self targetId v = true) ∧
    (targetId = none → jsIsRelevant self targetId v = true) ∧
    ((historyOfJs store self targetId).length ≤ limit →
      (getMessageHistoryJs store self targetId limit).Perm
        (historyOfJs store self targetId)) := by
  refine ⟨⟨?_, ?_, ?_⟩, ?_, ?_, ?_, ?_, ?_⟩
  · simp [listActiveAgentsJs, List.filterMap_append, jsListFilter]
  · simp [getIncomingMessagesJs, List.filterMap_append, jsIncomingFilter]
  · simp [getMessageHistoryJs, historyOfJs, List.filterMap_append,
      jsHistoryFilter]
  · unfold listActiveAgentsJs
    rw [List.mem_filterMap]
    constructor
    · rintro ⟨f, hf, hg⟩
      obtain ⟨h1, h2, h3⟩ := (jsListFilter_eq_some now f (v, s)).mp hg
      exact ⟨f, hf, h1, h2, h3⟩
    · rintro ⟨f, hf, h1, h2, h3⟩
      exact ⟨f, hf, (jsListFilter_eq_some now f (v, s)).mpr ⟨h1, h2, h3⟩⟩
  · unfold getIncomingMessagesJs
    rw [(List.perm_insertionSort jsTsLE _).mem_iff, List.mem_filterMap]
    constructor
    · rintro ⟨f, hf, hg⟩
      obtain ⟨h1, h2, h3⟩ := (jsIncomingFilter_eq_some self f v).mp hg
      exact ⟨f, hf, h1, h2, h3⟩
    · rintro ⟨f, hf, h1, h2, h3⟩
      exact ⟨f, hf, (jsIncomingFilter_eq_some self f v).mpr ⟨h1, h2, h3⟩⟩
  · unfold historyOfJs
    rw [List.mem_filterMap]
    constructor
    · rintro ⟨f, hf, hg⟩
      obtain ⟨h1, h2, h3⟩ := (jsHistoryFilter_eq_some self targetId f v).mp hg
      exact ⟨f, hf, h1, h2, h3⟩
    · rintro ⟨f, hf, h1, h2, h3⟩
      exact ⟨f, hf, (jsHistoryFilter_eq_some self targetId f v).mpr ⟨h1, h2, h3⟩⟩
  · rintro rfl
    rfl
  · intro hlen
    unfold getMessageHistoryJs
    rw [List.take_of_length_le]
    · exact List.perm_insertionSort jsTsGE _
    · rw [(List.perm_insertionSort jsTsGE _).length_eq]
      exact hlen

/-- Witness for C4 (amended) at a concrete store holding one JSON-valid
wrong-shape file: the junk value is kept by the history pass and the whole
history result is exactly that pass. -/
theorem C4_parse_failures_only_thrown_witness :
    ((⟨none, none, none, none⟩ : JsValue) ∈ historyOfJs
        [⟨"junk.json", JsContent.value ⟨none, none, none, none⟩⟩] "me" none) ∧
    (getMessageHistoryJs
        [⟨"junk.json", JsContent.value ⟨none, none, none, none⟩⟩] "me" none
        50).Perm
      (historyOfJs [⟨"junk.json", JsContent.value ⟨none, none, none, none⟩⟩]
        "me" none) := by
  have h := C4_parse_failures_only_thrown [] []
    [⟨"junk.json", JsContent.value ⟨none, none, none, none⟩⟩] "x" 0 "me" none
    50 ⟨none, none, none, none⟩ AgentStatus.offline
  exact ⟨h.2.2.2.1.mpr
      ⟨⟨"junk.json", JsContent.value ⟨none, none, none, none⟩⟩,
        by decide, by decide, rfl, by decide⟩,
    h.2.2.2.2.2 (by decide)⟩
